import Mathlib

/-!
Verification development for the `json_logger` JSON log formatter.

The repository's code (`json_logger/formatter.py`) defines a class
`JsonFormatter` whose `format` method converts one logging record into a
JSON string: it renders the message, builds a dictionary of selected
standard fields, merges caller-supplied extra attributes (filtering a
fixed set of internal attribute names and names starting with an
underscore), attaches exception and stack information, and serializes the
dictionary with a stringify-anything fallback.

This file shallowly embeds that code: Python dictionaries become
association lists with Python's insert-or-overwrite semantics, the record
becomes a structure carrying the attributes that `logging.LogRecord`
stores in its `__dict__`, and JSON values become an inductive type with a
constructor for values that are not natively JSON-representable.
-/

namespace JsonLogger

/-- A JSON-ish runtime value attached to a record attribute.  `vother`
stands for a Python object with no native JSON representation; its field
is the object's default string representation (what `str` returns), which
is what `json.dumps(default=str)` falls back to. -/
inductive Value where
  | vnull : Value
  | vbool : Bool → Value
  | vint : Int → Value
  | vstr : String → Value
  | vlist : List Value → Value
  | vobj : List (String × Value) → Value
  | vother : String → Value

/-- Overwrite one dictionary entry in place when its key is `k`. -/
def updateEntry (k : String) (v : Value) (p : String × Value) : String × Value :=
  if p.1 = k then (k, v) else p

/-- Python-dict insertion: overwrite in place when the key is already
present (keeping its position), otherwise append at the end.  This is the
semantics of `log_object[key] = value` on a `dict`. -/
def dinsert (m : List (String × Value)) (k : String) (v : Value) :
    List (String × Value) :=
  if m.any (fun p => p.1 = k) then
    m.map (updateEntry k v)
  else
    m ++ [(k, v)]

/-- Python-dict lookup (`m[k]` as an option): the first — and, for lists
built with `dinsert` from `[]`, only — entry with key `k`. -/
def dlookup : List (String × Value) → String → Option Value
  | [], _ => none
  | (k, v) :: rest, a => if a = k then some v else dlookup rest a

/-- The keys of a dictionary, in order. -/
def dkeys (m : List (String × Value)) : List String :=
  m.map Prod.fst

/-- Model of Python's `key.startswith("_")`. -/
def startsWithUnderscore (s : String) : Bool :=
  match s.data with
  | c :: _ => c == '_'
  | [] => false

/-- Model of Python's `str.rstrip()`: drop trailing whitespace. -/
def rstrip (s : String) : String :=
  ⟨(s.data.reverse.dropWhile Char.isWhitespace).reverse⟩

/-- A captured exception triple, as far as the formatter observes it:
`traceback.format_exception(*exc_info)` returns this list of lines. -/
structure ExcInfo where
  tracebackLines : List String
  deriving DecidableEq

/-- The attribute bag of one `logging.LogRecord`.  Fields mirror the
attributes that `LogRecord.__init__` stores in the record's `__dict__`
(the record's creation time is modelled at millisecond resolution as a
natural number of milliseconds since the epoch); `message` is the cached
rendered message, absent until `format` sets it; `extras` are the
caller-supplied attributes merged into `__dict__` at emission time. -/
structure LogRecord where
  name : String
  msg : String
  args : List String
  levelname : String
  levelno : Int
  pathname : String
  filename : String
  module : String
  exc_info : Option ExcInfo
  exc_text : String
  stack_info : String
  lineno : Int
  funcName : String
  created : Nat
  msecs : Nat
  relativeCreated : Nat
  thread : Int
  threadName : String
  processName : String
  process : Int
  taskName : String
  message : Option String
  extras : List (String × Value)

/-- Model of `%`-style message rendering limited to `%s` placeholders,
substituting the arguments in order. -/
def substPercentS : List Char → List String → List Char
  | [], _ => []
  | '%' :: 's' :: rest, arg :: rest_args => arg.data ++ substPercentS rest rest_args
  | c :: rest, as => c :: substPercentS rest as

/-- Model of `logging.LogRecord.getMessage`: `str(msg)`, with the
positional arguments substituted when the argument tuple is non-empty. -/
def LogRecord.getMessage (r : LogRecord) : String :=
  if r.args.isEmpty then r.msg else ⟨substPercentS r.msg.data r.args⟩

/-- The fixed internal attribute entries of `record.__dict__`, in the
order `LogRecord.__init__` assigns them.  The values of these entries are
never emitted (their keys are all internal), so exact value modelling of
the non-string ones is immaterial; the keys are what matters. -/
def internalEntries (r : LogRecord) : List (String × Value) :=
  [("name", Value.vstr r.name),
   ("msg", Value.vstr r.msg),
   ("args", Value.vlist (r.args.map Value.vstr)),
   ("levelname", Value.vstr r.levelname),
   ("levelno", Value.vint r.levelno),
   ("pathname", Value.vstr r.pathname),
   ("filename", Value.vstr r.filename),
   ("module", Value.vstr r.module),
   ("exc_info", match r.exc_info with
     | some _ => Value.vother "exc-info-tuple"
     | none => Value.vnull),
   ("exc_text", Value.vstr r.exc_text),
   ("stack_info", Value.vstr r.stack_info),
   ("lineno", Value.vint r.lineno),
   ("funcName", Value.vstr r.funcName),
   ("created", Value.vint (Int.ofNat r.created)),
   ("msecs", Value.vint (Int.ofNat r.msecs)),
   ("relativeCreated", Value.vint (Int.ofNat r.relativeCreated)),
   ("thread", Value.vint r.thread),
   ("threadName", Value.vstr r.threadName),
   ("processName", Value.vstr r.processName),
   ("process", Value.vint r.process),
   ("taskName", Value.vstr r.taskName)]

/-- The record's `__dict__` as the formatter iterates it: the fixed
internal attributes, then the caller-supplied extras, then the cached
`message` attribute (created after the extras, so it sits last). -/
def recordDict (r : LogRecord) : List (String × Value) :=
  internalEntries r ++ r.extras ++
    [("message", match r.message with
       | some m => Value.vstr m
       | none => Value.vnull)]

/-- `JsonFormatter.DEFAULT_FIELDS` from the source. -/
def DEFAULT_FIELDS : List String :=
  ["timestamp", "level", "logger", "message", "module", "function", "line"]

/-- `JsonFormatter._INTERNAL_ATTRS` from the source (a `frozenset`;
membership is all that is used). -/
def INTERNAL_ATTRS : List String :=
  ["args", "created", "exc_info", "exc_text", "filename", "funcName",
   "levelname", "levelno", "lineno", "message", "module", "msecs", "msg",
   "name", "pathname", "process", "processName", "relativeCreated",
   "stack_info", "taskName", "thread", "threadName"]

/-- The formatter's configuration, as stored by `JsonFormatter.__init__`. -/
structure JsonFormatter where
  fields : List String
  timestamp_key : String
  json_indent : Option Nat
  json_ensure_ascii : Bool
  deriving DecidableEq

/-- `JsonFormatter.__init__`: `fields` defaults to `DEFAULT_FIELDS`,
`timestamp_key` to `"timestamp"`, `json_indent` to `None`,
`json_ensure_ascii` to `False`. -/
def JsonFormatter.init (fields : Option (List String) := none)
    (timestamp_key : String := "timestamp")
    (json_indent : Option Nat := none)
    (json_ensure_ascii : Bool := false) : JsonFormatter :=
  { fields := fields.getD DEFAULT_FIELDS
    timestamp_key := timestamp_key
    json_indent := json_indent
    json_ensure_ascii := json_ensure_ascii }

/-- Digit character for one decimal digit (inputs are always `< 10`). -/
def digitChar (n : Nat) : Char :=
  match n with
  | 0 => '0' | 1 => '1' | 2 => '2' | 3 => '3' | 4 => '4'
  | 5 => '5' | 6 => '6' | 7 => '7' | 8 => '8' | _ => '9'

/-- Two-digit zero-padded decimal rendering. -/
def pad2 (n : Nat) : String :=
  ⟨[digitChar (n / 10 % 10), digitChar (n % 10)]⟩

/-- Three-digit zero-padded decimal rendering. -/
def pad3 (n : Nat) : String :=
  ⟨[digitChar (n / 100 % 10), digitChar (n / 10 % 10), digitChar (n % 10)]⟩

/-- Four-digit zero-padded decimal rendering. -/
def pad4 (n : Nat) : String :=
  ⟨[digitChar (n / 1000 % 10), digitChar (n / 100 % 10),
    digitChar (n / 10 % 10), digitChar (n % 10)]⟩

/-- Civil-calendar date (year, month, day) of a day count since
1970-01-01, for non-negative day counts (the era-shifting algorithm of
proleptic Gregorian date conversion). -/
def civilFromDays (z : Nat) : Nat × Nat × Nat :=
  let z1 := z + 719468
  let era := z1 / 146097
  let doe := z1 % 146097
  let yoe := (doe - doe / 1460 + doe / 36524 - doe / 146096) / 365
  let y := yoe + era * 400
  let doy := doe - (365 * yoe + yoe / 4 - yoe / 100)
  let mp := (5 * doy + 2) / 153
  let d := doy - (153 * mp + 2) / 5 + 1
  let m := if mp < 10 then mp + 3 else mp - 9
  (if m ≤ 2 then y + 1 else y, m, d)

/-- `JsonFormatter._get_timestamp`:
`datetime.fromtimestamp(record.created, tz=timezone.utc)` followed by
`isoformat(timespec="milliseconds")`, at millisecond resolution.  The UTC
offset of `timezone.utc` renders as `+00:00`. -/
def getTimestamp (createdMs : Nat) : String :=
  let ms := createdMs % 1000
  let totalSec := createdMs / 1000
  let secOfDay := totalSec % 86400
  let ymd := civilFromDays (totalSec / 86400)
  pad4 ymd.1 ++ "-" ++ pad2 ymd.2.1 ++ "-" ++ pad2 ymd.2.2 ++ "T" ++
    pad2 (secOfDay / 3600) ++ ":" ++ pad2 (secOfDay % 3600 / 60) ++ ":" ++
    pad2 (secOfDay % 60) ++ "." ++ pad3 ms ++ "+00:00"

/-- `JsonFormatter._format_exception`:
`"".join(traceback.format_exception(*exc_info)).rstrip()`. -/
def formatException (ei : ExcInfo) : String :=
  rstrip (String.join ei.tracebackLines)

/-- `logging.Formatter.formatStack` returns the captured stack text
unchanged. -/
def formatStack (s : String) : String := s

/-- The `field_map` dictionary built inside `format`, mapping each of the
seven recognized standard field names to its value for the (already
message-rendered) record. -/
def fieldMap (r : LogRecord) : List (String × Value) :=
  [("timestamp", Value.vstr (getTimestamp r.created)),
   ("level", Value.vstr r.levelname),
   ("logger", Value.vstr r.name),
   ("message", match r.message with
     | some m => Value.vstr m
     | none => Value.vnull),
   ("module", Value.vstr r.module),
   ("function", Value.vstr r.funcName),
   ("line", Value.vint r.lineno)]

/-- One step of the standard-field loop: `if field in field_map:
log_object[field] = field_map[field]`. -/
def addStandard (fm : List (String × Value)) (acc : List (String × Value))
    (field : String) : List (String × Value) :=
  match dlookup fm field with
  | some v => dinsert acc field v
  | none => acc

/-- One step of the extras loop: `if key not in self._INTERNAL_ATTRS and
not key.startswith("_"): log_object[key] = value`. -/
def addExtra (acc : List (String × Value)) (kv : String × Value) :
    List (String × Value) :=
  if kv.1 ∉ INTERNAL_ATTRS ∧ startsWithUnderscore kv.1 = false then
    dinsert acc kv.1 kv.2
  else acc

/-- The exception step of `format`: `if record.exc_info:` insert the
formatted traceback under `exception`, `elif record.exc_text:` insert the
cached exception text under `exception`. -/
def applyException (r : LogRecord) (m : List (String × Value)) :
    List (String × Value) :=
  match r.exc_info with
  | some ei => dinsert m "exception" (Value.vstr (formatException ei))
  | none =>
      if r.exc_text ≠ "" then
        dinsert m "exception" (Value.vstr r.exc_text)
      else m

/-- The stack step of `format`: `if record.stack_info:` insert the
formatted stack under `stack_info`. -/
def applyStack (r : LogRecord) (m : List (String × Value)) :
    List (String × Value) :=
  if r.stack_info ≠ "" then
    dinsert m "stack_info" (Value.vstr (formatStack r.stack_info))
  else m

/-- The body of `format` after the message has been rendered onto the
record: build the output dictionary phase by phase (standard fields,
extras, exception, stack info). -/
def buildLogObject (f : JsonFormatter) (r : LogRecord) :
    List (String × Value) :=
  applyStack r (applyException r
    ((recordDict r).foldl addExtra
      (f.fields.foldl (addStandard (fieldMap r)) [])))

/-- The character list a JSON string encoder emits for one character
(minimal escaping; `ensure_ascii` only affects which characters are
escaped, not the structure of the output). -/
def escapeJsonChar (c : Char) : List Char :=
  if c = '"' then ['\\', '"']
  else if c = '\\' then ['\\', '\\']
  else if c = '\n' then ['\\', 'n']
  else if c = '\t' then ['\\', 't']
  else if c = '\r' then ['\\', 'r']
  else [c]

/-- JSON string literal encoding. -/
def encodeJsonString (s : String) : String :=
  ⟨'"' :: (s.data.map escapeJsonChar).flatten ++ ['"']⟩

mutual

/-- Model of `json.dumps` on one value.  With `useDefault = false` a
value lacking a native JSON representation makes serialization fail
(`json.dumps` raises `TypeError`); with `useDefault = true` (the source
passes `default=str`) such a value is rendered via its string
representation instead.  Indentation only inserts whitespace, so the
model emits the compact form. -/
def dumpsVal (useDefault : Bool) : Value → Option String
  | Value.vnull => some "null"
  | Value.vbool b => some (if b then "true" else "false")
  | Value.vint n => some (toString n)
  | Value.vstr s => some (encodeJsonString s)
  | Value.vother s => if useDefault then some (encodeJsonString s) else none
  | Value.vlist items =>
      (dumpsList useDefault items).map
        (fun parts => "[" ++ String.intercalate ", " parts ++ "]")
  | Value.vobj entries =>
      (dumpsObj useDefault entries).map
        (fun parts => "\x7b" ++ String.intercalate ", " parts ++ "\x7d")

/-- Serialization of a list of array elements. -/
def dumpsList (useDefault : Bool) : List Value → Option (List String)
  | [] => some []
  | v :: vs =>
      match dumpsVal useDefault v, dumpsList useDefault vs with
      | some s, some ss => some (s :: ss)
      | _, _ => none

/-- Serialization of a list of object entries. -/
def dumpsObj (useDefault : Bool) : List (String × Value) → Option (List String)
  | [] => some []
  | (k, v) :: kvs =>
      match dumpsVal useDefault v, dumpsObj useDefault kvs with
      | some s, some ss => some ((encodeJsonString k ++ ": " ++ s) :: ss)
      | _, _ => none

end

/-- `JsonFormatter.format`: render the message onto the record (the one
mutation), build the output dictionary, and serialize it with
`default=str`.  The returned triple carries the serialized string
alongside the formatter and record states after the call, so that the
call's effect on both is part of the function's meaning. -/
def JsonFormatter.format (f : JsonFormatter) (record : LogRecord) :
    Option String × JsonFormatter × LogRecord :=
  let record1 := { record with message := some record.getMessage }
  (dumpsVal true (Value.vobj (buildLogObject f record1)), f, record1)

/-- The output dictionary `format f r` serializes, as a function of the
original (not yet message-rendered) record. -/
def logObject (f : JsonFormatter) (r : LogRecord) : List (String × Value) :=
  buildLogObject f { r with message := some r.getMessage }

/-- The key list of the output object of `format f r`. -/
def outputKeys (f : JsonFormatter) (r : LogRecord) : List String :=
  dkeys (logObject f r)

/-- Exception information is present on a record exactly when the code's
`if record.exc_info: … elif record.exc_text: …` chain takes a branch. -/
def excPresent (r : LogRecord) : Prop :=
  r.exc_info.isSome = true ∨ r.exc_text ≠ ""

instance (r : LogRecord) : Decidable (excPresent r) := by
  unfold excPresent; infer_instance

/-- Shape checker, character by character, for
`YYYY-MM-DDTHH:MM:SS.mmm+00:00`: four digits, a dash, two digits, a dash,
two digits, `T`, two digits, a colon, two digits, a colon, two digits, a
dot, exactly three digits, and the explicit UTC offset `+00:00`. -/
def isoCharsOk (l : List Char) : Bool :=
  match l with
  | y1 :: y2 :: y3 :: y4 :: d1 :: m1 :: m2 :: d2 :: a1 :: a2 :: t1 ::
      h1 :: h2 :: c1 :: n1 :: n2 :: c2 :: s1 :: s2 :: p1 :: f1 :: f2 ::
      f3 :: rest =>
      ([y1, y2, y3, y4, m1, m2, a1, a2, h1, h2, n1, n2, s1, s2,
        f1, f2, f3].all Char.isDigit) &&
      (d1 == '-') && (d2 == '-') && (t1 == 'T') && (c1 == ':') &&
      (c2 == ':') && (p1 == '.') &&
      (rest == ['+', '0', '0', ':', '0', '0'])
  | _ => false

/-- A string is an ISO-8601 UTC timestamp with millisecond precision when
its characters pass `isoCharsOk`. -/
def isIso8601MsUtc (s : String) : Bool :=
  isoCharsOk s.data

/-- Epoch milliseconds of 10000-01-01T00:00:00Z: `datetime` only supports
years up to 9999, so `record.created` values at or beyond this bound make
`datetime.fromtimestamp` raise and are outside the valid range. -/
def MAX_VALID_CREATED_MS : Nat := 253402300800000

/-! ### Concrete records used as evaluation inputs -/

/-- A plain record: no exception, no stack text, no extras. -/
def baseRecord : LogRecord :=
  { name := "meu_app"
    msg := "hello %s"
    args := ["world"]
    levelname := "INFO"
    levelno := 20
    pathname := "/app/main.py"
    filename := "main.py"
    module := "main"
    exc_info := none
    exc_text := ""
    stack_info := ""
    lineno := 42
    funcName := "run"
    created := 1700000000123
    msecs := 123
    relativeCreated := 5
    thread := 1
    threadName := "MainThread"
    processName := "MainProcess"
    process := 7
    taskName := ""
    message := none
    extras := [] }

/-- A record carrying explicitly requested stack-capture text. -/
def stackRecord : LogRecord :=
  { baseRecord with stack_info := "Stack (most recent call last):" }

/-- A record carrying a captured exception triple. -/
def excRecord : LogRecord :=
  { baseRecord with
      exc_info := some
        ⟨["Traceback (most recent call last):\n",
          "ValueError: algo errado\n"]⟩ }

/-- A record with no exception information but a caller-attached extra
attribute that happens to be named `exception`. -/
def spoofExcRecord : LogRecord :=
  { baseRecord with extras := [("exception", Value.vstr "spoofed")] }

/-- A record with both a captured exception triple and an extra attribute
named `exception`. -/
def overwriteExcRecord : LogRecord :=
  { baseRecord with
      exc_info := some ⟨["TypeError: boom\n"]⟩
      extras := [("exception", Value.vstr "from-extra")] }

/-- A record whose extra collides with the standard field `level`. -/
def levelExtraRecord : LogRecord :=
  { baseRecord with extras := [("level", Value.vstr "CUSTOM")] }

/-- A record with no exception information whose extra attribute named
`exception` carries a non-string value. -/
def phantomExcRecord : LogRecord :=
  { baseRecord with extras := [("exception", Value.vint 5)] }

/-! ### Dictionary lemmas -/

theorem mem_dkeys {m : List (String × Value)} {a : String} :
    a ∈ dkeys m ↔ ∃ v, (a, v) ∈ m := by
  constructor
  · intro h
    rw [dkeys, List.mem_map] at h
    obtain ⟨⟨x, y⟩, hp, rfl⟩ := h
    exact ⟨y, hp⟩
  · rintro ⟨v, hv⟩
    rw [dkeys, List.mem_map]
    exact ⟨(a, v), hv, rfl⟩

theorem any_key_eq_true {m : List (String × Value)} {k : String} :
    (m.any (fun p => p.1 = k)) = true ↔ k ∈ dkeys m := by
  simp [List.any_eq_true, dkeys, List.mem_map]

theorem updateEntry_of_eq {k : String} {v : Value} {k1 : String} {v1 : Value}
    (h : k1 = k) : updateEntry k v (k1, v1) = (k, v) :=
  if_pos h

theorem updateEntry_of_ne {k : String} {v : Value} {k1 : String} {v1 : Value}
    (h : ¬ k1 = k) : updateEntry k v (k1, v1) = (k1, v1) :=
  if_neg h

theorem dkeys_map_update (m : List (String × Value)) (k : String) (v : Value) :
    dkeys (m.map (updateEntry k v)) = dkeys m := by
  induction m with
  | nil => rfl
  | cons p rest ih =>
      obtain ⟨k1, v1⟩ := p
      by_cases h : k1 = k
      · rw [List.map_cons, updateEntry_of_eq h]
        simp only [dkeys, List.map_cons] at ih ⊢
        rw [h]
        exact congrArg _ ih
      · rw [List.map_cons, updateEntry_of_ne h]
        simp only [dkeys, List.map_cons] at ih ⊢
        exact congrArg _ ih

theorem mem_dkeys_dinsert {m : List (String × Value)} {k a : String} {v : Value} :
    a ∈ dkeys (dinsert m k v) ↔ a ∈ dkeys m ∨ a = k := by
  unfold dinsert
  by_cases h : (m.any (fun p => p.1 = k)) = true
  · rw [if_pos h, dkeys_map_update]
    have hk : k ∈ dkeys m := any_key_eq_true.mp h
    constructor
    · exact Or.inl
    · rintro (ha | rfl)
      · exact ha
      · exact hk
  · rw [if_neg h]
    simp [dkeys]

theorem mem_dkeys_cons {p : String × Value} {m : List (String × Value)}
    {a : String} : a ∈ dkeys (p :: m) ↔ a = p.1 ∨ a ∈ dkeys m := by
  rw [dkeys, List.map_cons, List.mem_cons]
  exact Iff.rfl

theorem dlookup_append (m l : List (String × Value)) (a : String) :
    dlookup (m ++ l) a = if a ∈ dkeys m then dlookup m a else dlookup l a := by
  induction m with
  | nil => simp [dlookup, dkeys]
  | cons p rest ih =>
      obtain ⟨k1, v1⟩ := p
      by_cases h : a = k1
      · simp [dlookup, dkeys, h, List.mem_cons]
      · rw [List.cons_append]
        simp only [dlookup, if_neg h, ih]
        by_cases hr : a ∈ dkeys rest
        · rw [if_pos hr, if_pos (mem_dkeys_cons.mpr (Or.inr hr))]
        · rw [if_neg hr, if_neg (fun hm => (mem_dkeys_cons.mp hm).elim h hr)]

theorem dlookup_map_update_ne {m : List (String × Value)} {k a : String}
    {v : Value} (h : ¬ a = k) :
    dlookup (m.map (updateEntry k v)) a = dlookup m a := by
  induction m with
  | nil => rfl
  | cons p rest ih =>
      obtain ⟨k1, v1⟩ := p
      by_cases hk : k1 = k
      · rw [List.map_cons, updateEntry_of_eq hk]
        have ha1 : ¬ a = k1 := hk ▸ h
        simp only [dlookup, if_neg h, if_neg ha1]
        exact ih
      · rw [List.map_cons, updateEntry_of_ne hk]
        by_cases ha : a = k1
        · simp only [dlookup, if_pos ha]
        · simp only [dlookup, if_neg ha]
          exact ih

theorem dlookup_map_update_self {m : List (String × Value)} {k : String}
    {v : Value} (h : k ∈ dkeys m) :
    dlookup (m.map (updateEntry k v)) k = some v := by
  induction m with
  | nil => simp [dkeys] at h
  | cons p rest ih =>
      obtain ⟨k1, v1⟩ := p
      by_cases hk : k1 = k
      · rw [List.map_cons, updateEntry_of_eq hk]
        simp [dlookup]
      · rw [List.map_cons, updateEntry_of_ne hk]
        have hne : ¬ k = k1 := fun hkk => hk hkk.symm
        simp only [dlookup, if_neg hne]
        refine ih ?_
        simp only [dkeys, List.map_cons, List.mem_cons] at h
        rcases h with h1 | h1
        · exact absurd h1.symm hk
        · exact h1

theorem dlookup_eq_none_of_not_mem {m : List (String × Value)} {a : String}
    (h : a ∉ dkeys m) : dlookup m a = none := by
  induction m with
  | nil => rfl
  | cons p rest ih =>
      obtain ⟨k1, v1⟩ := p
      simp only [dkeys, List.map_cons, List.mem_cons] at h
      push_neg at h
      simp only [dlookup, if_neg h.1]
      exact ih (by simpa [dkeys] using h.2)

theorem dlookup_dinsert_self (m : List (String × Value)) (k : String) (v : Value) :
    dlookup (dinsert m k v) k = some v := by
  unfold dinsert
  by_cases h : (m.any (fun p => p.1 = k)) = true
  · rw [if_pos h]
    exact dlookup_map_update_self (any_key_eq_true.mp h)
  · rw [if_neg h]
    have hk : k ∉ dkeys m := fun hm => h (any_key_eq_true.mpr hm)
    rw [dlookup_append, if_neg hk]
    simp [dlookup]

theorem dlookup_dinsert_ne {m : List (String × Value)} {k a : String}
    {v : Value} (h : ¬ a = k) :
    dlookup (dinsert m k v) a = dlookup m a := by
  unfold dinsert
  by_cases hany : (m.any (fun p => p.1 = k)) = true
  · rw [if_pos hany]
    exact dlookup_map_update_ne h
  · rw [if_neg hany, dlookup_append]
    by_cases hm : a ∈ dkeys m
    · rw [if_pos hm]
    · rw [if_neg hm, dlookup_eq_none_of_not_mem hm, dlookup_eq_none_of_not_mem]
      simp only [dkeys, List.map_cons, List.map_nil, List.mem_singleton]
      exact h

/-! ### Lookup/key lemmas for the three build phases -/

theorem dlookup_isSome {m : List (String × Value)} {a : String} :
    (dlookup m a).isSome = true ↔ a ∈ dkeys m := by
  induction m with
  | nil => simp [dlookup, dkeys]
  | cons p rest ih =>
      obtain ⟨k1, v1⟩ := p
      by_cases h : a = k1
      · simp [dlookup, h, mem_dkeys_cons]
      · simp [dlookup, h, mem_dkeys_cons, ih]

theorem mem_dkeys_foldl_addStandard (fm : List (String × Value))
    (fields : List String) (acc : List (String × Value)) (a : String) :
    a ∈ dkeys (fields.foldl (addStandard fm) acc) ↔
      a ∈ dkeys acc ∨ (a ∈ fields ∧ (dlookup fm a).isSome = true) := by
  induction fields generalizing acc with
  | nil => simp
  | cons x xs ih =>
      rw [List.foldl_cons, ih]
      unfold addStandard
      by_cases hx : a = x
      · subst hx
        cases hlk : dlookup fm a with
        | some v => simp [mem_dkeys_dinsert, List.mem_cons, hlk]
        | none => simp [List.mem_cons, hlk]
      · cases hlk : dlookup fm x with
        | some v =>
            simp only [mem_dkeys_dinsert, List.mem_cons]
            constructor
            · rintro ((h1 | h1) | h1)
              · exact Or.inl h1
              · exact absurd h1 hx
              · exact Or.inr ⟨Or.inr h1.1, h1.2⟩
            · rintro (h1 | ⟨h1 | h1, h2⟩)
              · exact Or.inl (Or.inl h1)
              · exact absurd h1 hx
              · exact Or.inr ⟨h1, h2⟩
        | none =>
            simp only [List.mem_cons]
            constructor
            · rintro (h1 | h1)
              · exact Or.inl h1
              · exact Or.inr ⟨Or.inr h1.1, h1.2⟩
            · rintro (h1 | ⟨h1 | h1, h2⟩)
              · exact Or.inl h1
              · subst h1
                rw [hlk] at h2
                cases h2
              · exact Or.inr ⟨h1, h2⟩

theorem dlookup_foldl_addStandard_of_not_mem {fm : List (String × Value)}
    {fields : List String} {a : String} (acc : List (String × Value))
    (h : a ∉ fields) :
    dlookup (fields.foldl (addStandard fm) acc) a = dlookup acc a := by
  induction fields generalizing acc with
  | nil => rfl
  | cons x xs ih =>
      have hx : ¬ a = x := fun he => h (he ▸ List.mem_cons_self x xs)
      have hxs : a ∉ xs := fun hm => h (List.mem_cons_of_mem _ hm)
      rw [List.foldl_cons, ih _ hxs]
      unfold addStandard
      cases dlookup fm x with
      | some v => exact dlookup_dinsert_ne hx
      | none => rfl

theorem dlookup_foldl_addStandard_of_mem {fm : List (String × Value)}
    {a : String} {v : Value} :
    ∀ (fields : List String) (acc : List (String × Value)),
      a ∈ fields → dlookup fm a = some v →
      dlookup (fields.foldl (addStandard fm) acc) a = some v
  | [], _, hmem, _ => absurd hmem (List.not_mem_nil _)
  | x :: xs, acc, hmem, hlk => by
      rw [List.foldl_cons]
      by_cases hxs : a ∈ xs
      · exact dlookup_foldl_addStandard_of_mem xs _ hxs hlk
      · have hax : a = x := by
          rcases List.mem_cons.mp hmem with h1 | h1
          · exact h1
          · exact absurd h1 hxs
        subst hax
        rw [dlookup_foldl_addStandard_of_not_mem _ hxs]
        unfold addStandard
        rw [hlk]
        exact dlookup_dinsert_self _ _ _

theorem mem_dkeys_addExtra {acc : List (String × Value)} {kv : String × Value}
    {a : String} :
    a ∈ dkeys (addExtra acc kv) ↔
      a ∈ dkeys acc ∨
        (a = kv.1 ∧ kv.1 ∉ INTERNAL_ATTRS ∧ startsWithUnderscore kv.1 = false) := by
  unfold addExtra
  by_cases hcond : kv.1 ∉ INTERNAL_ATTRS ∧ startsWithUnderscore kv.1 = false
  · rw [if_pos hcond, mem_dkeys_dinsert]
    constructor
    · rintro (h | h)
      · exact Or.inl h
      · exact Or.inr ⟨h, hcond⟩
    · rintro (h | ⟨h, _⟩)
      · exact Or.inl h
      · exact Or.inr h
  · rw [if_neg hcond]
    constructor
    · exact Or.inl
    · rintro (h | ⟨_, h2⟩)
      · exact h
      · exact absurd h2 hcond

theorem mem_dkeys_foldl_addExtra (l : List (String × Value))
    (acc : List (String × Value)) (a : String) :
    a ∈ dkeys (l.foldl addExtra acc) ↔
      a ∈ dkeys acc ∨
        ∃ v, (a, v) ∈ l ∧ a ∉ INTERNAL_ATTRS ∧ startsWithUnderscore a = false := by
  induction l generalizing acc with
  | nil => simp
  | cons kv rest ih =>
      rw [List.foldl_cons, ih, mem_dkeys_addExtra]
      constructor
      · rintro ((h | ⟨h1, h2, h3⟩) | ⟨v, hv, h2, h3⟩)
        · exact Or.inl h
        · refine Or.inr ⟨kv.2, ?_, ?_, ?_⟩
          · rw [h1]
            exact List.mem_cons_self _ _
          · rw [h1]
            exact h2
          · rw [h1]
            exact h3
        · exact Or.inr ⟨v, List.mem_cons_of_mem _ hv, h2, h3⟩
      · rintro (h | ⟨v, hv, h2, h3⟩)
        · exact Or.inl (Or.inl h)
        · rcases List.mem_cons.mp hv with h4 | h4
          · have ha : a = kv.1 := congrArg Prod.fst h4
            refine Or.inl (Or.inr ⟨ha, ?_, ?_⟩)
            · rw [← ha]
              exact h2
            · rw [← ha]
              exact h3
          · exact Or.inr ⟨v, h4, h2, h3⟩

theorem dlookup_foldl_addExtra_of_no_key {a : String} :
    ∀ (l : List (String × Value)) (acc : List (String × Value)),
      (∀ v, (a, v) ∉ l) →
      dlookup (l.foldl addExtra acc) a = dlookup acc a
  | [], _, _ => rfl
  | (k, w) :: rest, acc, h => by
      have hak : ¬ a = k := by
        rintro rfl
        exact h w (List.mem_cons_self _ _)
      have hrest : ∀ v, (a, v) ∉ rest :=
        fun v hv => h v (List.mem_cons_of_mem _ hv)
      rw [List.foldl_cons,
        dlookup_foldl_addExtra_of_no_key rest _ hrest]
      unfold addExtra
      split
      · exact dlookup_dinsert_ne hak
      · rfl

theorem dlookup_foldl_addExtra_of_blocked {a : String}
    (hbl : a ∈ INTERNAL_ATTRS ∨ startsWithUnderscore a = true) :
    ∀ (l : List (String × Value)) (acc : List (String × Value)),
      dlookup (l.foldl addExtra acc) a = dlookup acc a
  | [], _ => rfl
  | (k, w) :: rest, acc => by
      rw [List.foldl_cons,
        dlookup_foldl_addExtra_of_blocked hbl rest _]
      unfold addExtra
      by_cases hcond : k ∉ INTERNAL_ATTRS ∧ startsWithUnderscore k = false
      · rw [if_pos hcond]
        have hak : ¬ a = k := by
          rintro rfl
          rcases hbl with h1 | h1
          · exact hcond.1 h1
          · rw [hcond.2] at h1
            cases h1
        exact dlookup_dinsert_ne hak
      · rw [if_neg hcond]

theorem dlookup_foldl_addExtra_of_uniq {a : String} {v : Value}
    (hint : a ∉ INTERNAL_ATTRS) (hsw : startsWithUnderscore a = false) :
    ∀ (l : List (String × Value)) (acc : List (String × Value)),
      (a, v) ∈ l → (∀ v1, (a, v1) ∈ l → v1 = v) →
      dlookup (l.foldl addExtra acc) a = some v
  | [], _, hmem, _ => absurd hmem (List.not_mem_nil _)
  | (k, w) :: rest, acc, hmem, huniq => by
      classical
      rw [List.foldl_cons]
      by_cases hrest : ∃ v1, (a, v1) ∈ rest
      · obtain ⟨v1, hv1⟩ := hrest
        have hv1v : v1 = v := huniq v1 (List.mem_cons_of_mem _ hv1)
        subst hv1v
        exact dlookup_foldl_addExtra_of_uniq hint hsw rest _ hv1
          (fun v2 h2 => huniq v2 (List.mem_cons_of_mem _ h2))
      · have hak : (a, v) = (k, w) := by
          rcases List.mem_cons.mp hmem with h1 | h1
          · exact h1
          · exact absurd ⟨v, h1⟩ hrest
        obtain ⟨rfl, rfl⟩ := Prod.mk.injEq .. ▸ hak
        rw [dlookup_foldl_addExtra_of_no_key rest _
          (fun v1 h1 => hrest ⟨v1, h1⟩)]
        unfold addExtra
        rw [if_pos ⟨hint, hsw⟩]
        exact dlookup_dinsert_self _ _ _

/-! ### Record-dictionary and field-map lemmas -/

theorem dkeys_fieldMap (r : LogRecord) : dkeys (fieldMap r) = DEFAULT_FIELDS := rfl

theorem dlookup_fieldMap_isSome {r : LogRecord} {a : String} :
    (dlookup (fieldMap r) a).isSome = true ↔ a ∈ DEFAULT_FIELDS := by
  rw [dlookup_isSome, dkeys_fieldMap]

theorem dlookup_fieldMap_eq_none {r : LogRecord} {a : String}
    (h : a ∉ DEFAULT_FIELDS) : dlookup (fieldMap r) a = none := by
  apply dlookup_eq_none_of_not_mem
  rw [dkeys_fieldMap]
  exact h

theorem dkeys_internalEntries_subset {r : LogRecord} :
    ∀ x ∈ dkeys (internalEntries r), x ∈ INTERNAL_ATTRS := by
  intro x hx
  have he : dkeys (internalEntries r) =
      ["name", "msg", "args", "levelname", "levelno", "pathname", "filename",
       "module", "exc_info", "exc_text", "stack_info", "lineno", "funcName",
       "created", "msecs", "relativeCreated", "thread", "threadName",
       "processName", "process", "taskName"] := rfl
  rw [he] at hx
  fin_cases hx <;> decide

theorem mem_recordDict_of_not_internal {r : LogRecord} {a : String} {v : Value}
    (h : a ∉ INTERNAL_ATTRS) : ((a, v) ∈ recordDict r ↔ (a, v) ∈ r.extras) := by
  unfold recordDict
  constructor
  · intro h1
    rcases List.mem_append.mp h1 with h2 | h2
    · rcases List.mem_append.mp h2 with h3 | h3
      · exact absurd (dkeys_internalEntries_subset a
          (show a ∈ dkeys (internalEntries r) from
            List.mem_map_of_mem Prod.fst h3)) h
      · exact h3
    · have ha : a = "message" := congrArg Prod.fst (List.mem_singleton.mp h2)
      rw [ha] at h
      exact absurd (by decide) h
  · intro h1
    exact List.mem_append.mpr (Or.inl (List.mem_append.mpr (Or.inr h1)))

theorem mem_dkeys_applyException {r : LogRecord} {m : List (String × Value)}
    {a : String} :
    a ∈ dkeys (applyException r m) ↔
      a ∈ dkeys m ∨ (a = "exception" ∧ excPresent r) := by
  unfold applyException
  rcases hei : r.exc_info with _ | ei
  · by_cases het : r.exc_text ≠ ""
    · rw [if_pos het, mem_dkeys_dinsert]
      simp [excPresent, hei, het]
    · rw [if_neg het]
      simp [excPresent, hei, het]
  · rw [mem_dkeys_dinsert]
    simp [excPresent, hei]

theorem mem_dkeys_applyStack {r : LogRecord} {m : List (String × Value)}
    {a : String} :
    a ∈ dkeys (applyStack r m) ↔
      a ∈ dkeys m ∨ (a = "stack_info" ∧ r.stack_info ≠ "") := by
  unfold applyStack
  by_cases hst : r.stack_info ≠ ""
  · rw [if_pos hst, mem_dkeys_dinsert]
    simp [hst]
  · rw [if_neg hst]
    simp [hst]

theorem dlookup_applyException_ne {r : LogRecord} {m : List (String × Value)}
    {a : String} (h : ¬ a = "exception") :
    dlookup (applyException r m) a = dlookup m a := by
  unfold applyException
  rcases r.exc_info with _ | ei
  · by_cases het : r.exc_text ≠ ""
    · rw [if_pos het, dlookup_dinsert_ne h]
    · rw [if_neg het]
  · exact dlookup_dinsert_ne h

theorem dlookup_applyStack_ne {r : LogRecord} {m : List (String × Value)}
    {a : String} (h : ¬ a = "stack_info") :
    dlookup (applyStack r m) a = dlookup m a := by
  unfold applyStack
  by_cases hst : r.stack_info ≠ ""
  · rw [if_pos hst, dlookup_dinsert_ne h]
  · rw [if_neg hst]

theorem applyException_of_absent {r : LogRecord} {m : List (String × Value)}
    (h1 : r.exc_info = none) (h2 : r.exc_text = "") :
    applyException r m = m := by
  unfold applyException
  rw [h1]
  simp [h2]

/-- The key set of the object `buildLogObject` produces for an arbitrary
record state: selected recognized standard fields, surviving extras, and
the conditional `exception` and `stack_info` keys. -/
theorem mem_dkeys_buildLogObject (f : JsonFormatter) (r : LogRecord) (a : String) :
    a ∈ dkeys (buildLogObject f r) ↔
      (a ∈ f.fields ∧ a ∈ DEFAULT_FIELDS) ∨
      (∃ v, (a, v) ∈ r.extras ∧ a ∉ INTERNAL_ATTRS ∧
        startsWithUnderscore a = false) ∨
      (a = "exception" ∧ excPresent r) ∨
      (a = "stack_info" ∧ r.stack_info ≠ "") := by
  unfold buildLogObject
  rw [mem_dkeys_applyStack, mem_dkeys_applyException,
    mem_dkeys_foldl_addExtra, mem_dkeys_foldl_addStandard]
  simp only [dkeys, List.map_nil, List.not_mem_nil, false_or,
    dlookup_fieldMap_isSome]
  constructor
  · rintro (((h | ⟨v, hv, h2, h3⟩) | h) | h)
    · exact Or.inl h
    · exact Or.inr (Or.inl ⟨v, (mem_recordDict_of_not_internal h2).mp hv, h2, h3⟩)
    · exact Or.inr (Or.inr (Or.inl h))
    · exact Or.inr (Or.inr (Or.inr h))
  · rintro (h | (⟨v, hv, h2, h3⟩ | (h | h)))
    · exact Or.inl (Or.inl (Or.inl h))
    · exact Or.inl (Or.inl (Or.inr
        ⟨v, (mem_recordDict_of_not_internal h2).mpr hv, h2, h3⟩))
    · exact Or.inl (Or.inr h)
    · exact Or.inr h

/-- The key set of the output object of `format`, phrased against the
original record. -/
theorem mem_outputKeys_iff (f : JsonFormatter) (r : LogRecord) (a : String) :
    a ∈ outputKeys f r ↔
      (a ∈ f.fields ∧ a ∈ DEFAULT_FIELDS) ∨
      (∃ v, (a, v) ∈ r.extras ∧ a ∉ INTERNAL_ATTRS ∧
        startsWithUnderscore a = false) ∨
      (a = "exception" ∧ excPresent r) ∨
      (a = "stack_info" ∧ r.stack_info ≠ "") := by
  unfold outputKeys logObject
  rw [mem_dkeys_buildLogObject]
  exact Iff.rfl

/-! ### Timestamp shape lemmas -/

theorem string_data_append (a b : String) : (a ++ b).data = a.data ++ b.data :=
  rfl

theorem string_data_mk (l : List Char) : (String.mk l).data = l :=
  rfl

theorem digitChar_isDigit (n : Nat) : (digitChar n).isDigit = true := by
  unfold digitChar
  split <;> rfl

theorem isIso_getTimestamp (ms : Nat) :
    isIso8601MsUtc (getTimestamp ms) = true := by
  unfold isIso8601MsUtc getTimestamp pad4 pad3 pad2
  simp only [string_data_append, string_data_mk,
    show ("-" : String).data = ['-'] from rfl,
    show ("T" : String).data = ['T'] from rfl,
    show (":" : String).data = [':'] from rfl,
    show ("." : String).data = ['.'] from rfl,
    show ("+00:00" : String).data = ['+', '0', '0', ':', '0', '0'] from rfl,
    List.cons_append, List.nil_append]
  simp [isoCharsOk, digitChar_isDigit]

/-! ### Value-level lemmas for the exception phase -/

theorem dlookup_applyException_some {r : LogRecord}
    {m : List (String × Value)} {ei : ExcInfo} (hei : r.exc_info = some ei) :
    dlookup (applyException r m) "exception" =
      some (Value.vstr (formatException ei)) := by
  unfold applyException
  rw [hei]
  exact dlookup_dinsert_self _ _ _

theorem dlookup_applyException_text {r : LogRecord}
    {m : List (String × Value)} (hei : r.exc_info = none)
    (het : r.exc_text ≠ "") :
    dlookup (applyException r m) "exception" = some (Value.vstr r.exc_text) := by
  unfold applyException
  rw [hei, if_pos het]
  exact dlookup_dinsert_self _ _ _

/-! ### Uniqueness of values under distinct keys -/

theorem nodup_keys_unique {l : List (String × Value)} {k : String}
    {v v1 : Value} (hnd : (l.map Prod.fst).Nodup)
    (h1 : (k, v) ∈ l) (h2 : (k, v1) ∈ l) : v1 = v := by
  induction l with
  | nil => cases h1
  | cons p rest ih =>
      rw [List.map_cons, List.nodup_cons] at hnd
      rcases List.mem_cons.mp h1 with ha | ha
      · rcases List.mem_cons.mp h2 with hb | hb
        · have hba : (k, v1) = (k, v) := hb.trans ha.symm
          exact congrArg Prod.snd hba
        · exfalso
          apply hnd.1
          have hk : k ∈ rest.map Prod.fst := List.mem_map_of_mem Prod.fst hb
          have hp : k = p.1 := congrArg Prod.fst ha
          rwa [hp] at hk
      · rcases List.mem_cons.mp h2 with hb | hb
        · exfalso
          apply hnd.1
          have hk : k ∈ rest.map Prod.fst := List.mem_map_of_mem Prod.fst ha
          have hp : k = p.1 := congrArg Prod.fst hb
          rwa [hp] at hk
        · exact ih hnd.2 ha hb

/-! ### Totality of serialization with the stringify fallback -/

mutual

theorem dumpsVal_total : ∀ (v : Value), (dumpsVal true v).isSome = true
  | Value.vnull => rfl
  | Value.vbool _ => rfl
  | Value.vint _ => rfl
  | Value.vstr _ => rfl
  | Value.vother _ => rfl
  | Value.vlist items => by
      have h := dumpsList_total items
      unfold dumpsVal
      rcases hd : dumpsList true items with _ | parts
      · rw [hd] at h
        exact Bool.noConfusion h
      · rfl
  | Value.vobj entries => by
      have h := dumpsObj_total entries
      unfold dumpsVal
      rcases hd : dumpsObj true entries with _ | parts
      · rw [hd] at h
        exact Bool.noConfusion h
      · rfl

theorem dumpsList_total : ∀ (l : List Value), (dumpsList true l).isSome = true
  | [] => rfl
  | v :: vs => by
      have h1 := dumpsVal_total v
      have h2 := dumpsList_total vs
      unfold dumpsList
      rcases hv : dumpsVal true v with _ | s
      · rw [hv] at h1
        exact Bool.noConfusion h1
      · rcases hvs : dumpsList true vs with _ | ss
        · rw [hvs] at h2
          exact Bool.noConfusion h2
        · rfl

theorem dumpsObj_total :
    ∀ (l : List (String × Value)), (dumpsObj true l).isSome = true
  | [] => rfl
  | (k, v) :: kvs => by
      have h1 := dumpsVal_total v
      have h2 := dumpsObj_total kvs
      unfold dumpsObj
      rcases hv : dumpsVal true v with _ | s
      · rw [hv] at h1
        exact Bool.noConfusion h1
      · rcases hvs : dumpsObj true kvs with _ | ss
        · rw [hvs] at h2
          exact Bool.noConfusion h2
        · rfl

end

theorem addStandard_of_none {fm : List (String × Value)} {k : String}
    (h : dlookup fm k = none) (acc : List (String × Value)) :
    addStandard fm acc k = acc := by
  unfold addStandard
  rw [h]

/-! ### Claim theorems -/

/-- C1: for every formatter configuration and record, the key set of the
JSON object produced by `format` is exactly: the recognized standard
field names among the configured fields, union the record attributes
whose names are not in the internal-attribute set and do not start with
an underscore, union `exception` when exception information is present,
union `stack_info` when stack-capture text is present. -/
theorem c1_output_key_set (f : JsonFormatter) (r : LogRecord) (a : String) :
    a ∈ outputKeys f r ↔
      (a ∈ f.fields ∧ a ∈ DEFAULT_FIELDS) ∨
      (∃ v, (a, v) ∈ recordDict r ∧ a ∉ INTERNAL_ATTRS ∧
        startsWithUnderscore a = false) ∨
      (a = "exception" ∧ excPresent r) ∨
      (a = "stack_info" ∧ r.stack_info ≠ "") := by
  rw [mem_outputKeys_iff]
  constructor
  · rintro (h | ⟨v, hv, h2, h3⟩ | h | h)
    · exact Or.inl h
    · exact Or.inr (Or.inl ⟨v, (mem_recordDict_of_not_internal h2).mpr hv, h2, h3⟩)
    · exact Or.inr (Or.inr (Or.inl h))
    · exact Or.inr (Or.inr (Or.inr h))
  · rintro (h | ⟨v, hv, h2, h3⟩ | h | h)
    · exact Or.inl h
    · exact Or.inr (Or.inl ⟨v, (mem_recordDict_of_not_internal h2).mp hv, h2, h3⟩)
    · exact Or.inr (Or.inr (Or.inl h))
    · exact Or.inr (Or.inr (Or.inr h))

/-- C2 as stated is false on the code: `stack_info` is in the internal
attribute set, is not a configured standard field, yet appears as a
top-level output key whenever the record carries stack-capture text. -/
theorem c2_counterexample :
    "stack_info" ∈ INTERNAL_ATTRS ∧
    "stack_info" ∉ (JsonFormatter.init).fields ∧
    "stack_info" ∈ outputKeys (JsonFormatter.init) stackRecord := by
  refine ⟨by decide, by decide, ?_⟩
  rw [mem_outputKeys_iff]
  exact Or.inr (Or.inr (Or.inr ⟨rfl, by decide⟩))

/-- C2 amended: a name in the fixed internal-attribute set that is not
explicitly selected as a standard field never appears as a top-level
output key, except for `stack_info`, which the stack-capture step emits
when the record carries stack text. -/
theorem c2_internal_non_leak (f : JsonFormatter) (r : LogRecord) (a : String)
    (h1 : a ∈ INTERNAL_ATTRS) (h2 : a ∉ f.fields)
    (h3 : a = "stack_info" → r.stack_info = "") :
    a ∉ outputKeys f r := by
  rw [mem_outputKeys_iff]
  rintro (⟨hf, _⟩ | ⟨v, _, hni, _⟩ | ⟨he, _⟩ | ⟨hs, hne⟩)
  · exact h2 hf
  · exact hni h1
  · rw [he] at h1
    exact absurd h1 (by decide)
  · exact hne (h3 hs)

/-- Witness for the amended C2: `args` never leaks into the default
output. -/
theorem c2_internal_non_leak_witness :
    "args" ∉ outputKeys (JsonFormatter.init) baseRecord :=
  c2_internal_non_leak (JsonFormatter.init) baseRecord "args" (by decide)
    (by decide) (fun h => absurd h (by decide))

/-- C3: changing only `timestamp_key` never changes the serialized
output or the record returned by `format`, and whenever the `timestamp`
standard field is selected (and no extra shadows it) the creation time is
emitted under the literal key `timestamp`. -/
theorem c3_timestamp_key_no_effect :
    (∀ (f : JsonFormatter) (k : String) (r : LogRecord),
      (JsonFormatter.format { f with timestamp_key := k } r).1 =
        (JsonFormatter.format f r).1 ∧
      (JsonFormatter.format { f with timestamp_key := k } r).2.2 =
        (JsonFormatter.format f r).2.2) ∧
    (∀ (f : JsonFormatter) (r : LogRecord),
      "timestamp" ∈ f.fields → (∀ v, ("timestamp", v) ∉ r.extras) →
      dlookup (logObject f r) "timestamp" =
        some (Value.vstr (getTimestamp r.created))) := by
  constructor
  · intro f k r
    exact ⟨rfl, rfl⟩
  · intro f r hf hext
    unfold logObject buildLogObject
    rw [dlookup_applyStack_ne (by decide), dlookup_applyException_ne (by decide)]
    have hno : ∀ v, (("timestamp", v) : String × Value) ∉
        recordDict { r with message := some r.getMessage } := by
      intro v hv
      exact hext v ((@mem_recordDict_of_not_internal
        { r with message := some r.getMessage } "timestamp" v (by decide)).mp hv)
    rw [dlookup_foldl_addExtra_of_no_key _ _ hno]
    exact dlookup_foldl_addStandard_of_mem f.fields [] hf rfl

/-- Witness for C3: on a concrete record the creation time appears under
the key `timestamp`. -/
theorem c3_witness :
    dlookup (logObject (JsonFormatter.init) baseRecord) "timestamp" =
      some (Value.vstr (getTimestamp baseRecord.created)) :=
  c3_timestamp_key_no_effect.2 (JsonFormatter.init) baseRecord (by decide)
    (fun v h => absurd h (List.not_mem_nil _))

/-- C4: for every record with a creation time in the range `datetime`
supports, the emitted timestamp renders as ISO-8601 with exactly three
fractional digits and an explicit `+00:00` UTC offset. -/
theorem c4_timestamp_format (r : LogRecord)
    (_h : r.created < MAX_VALID_CREATED_MS) :
    isIso8601MsUtc (getTimestamp r.created) = true :=
  isIso_getTimestamp r.created

/-- Witness for C4 at a concrete record. -/
theorem c4_witness :
    baseRecord.created < MAX_VALID_CREATED_MS ∧
    isIso8601MsUtc (getTimestamp baseRecord.created) = true :=
  ⟨by decide, c4_timestamp_format baseRecord (by decide)⟩

/-- C5 as stated is false on the code: a record carrying neither an
exception triple nor exception text still yields an `exception` output
key when a caller-attached extra of that name survives the filter. -/
theorem c5_counterexample :
    spoofExcRecord.exc_info = none ∧ spoofExcRecord.exc_text = "" ∧
    "exception" ∈ outputKeys (JsonFormatter.init) spoofExcRecord := by
  refine ⟨rfl, rfl, ?_⟩
  rw [mem_outputKeys_iff]
  exact Or.inr (Or.inl ⟨Value.vstr "spoofed", List.mem_singleton.mpr rfl,
    by decide, by decide⟩)

/-- C5 amended: with a captured triple the `exception` key carries the
rstripped formatted traceback; with only cached exception text it carries
that text; with neither — and no extra attribute named `exception` — the
key is absent. -/
theorem c5_exception_field (f : JsonFormatter) (r : LogRecord) :
    (∀ ei, r.exc_info = some ei →
      dlookup (logObject f r) "exception" =
        some (Value.vstr (formatException ei))) ∧
    (r.exc_info = none → r.exc_text ≠ "" →
      dlookup (logObject f r) "exception" = some (Value.vstr r.exc_text)) ∧
    (r.exc_info = none → r.exc_text = "" →
      (∀ v, ("exception", v) ∉ r.extras) →
      "exception" ∉ outputKeys f r) := by
  refine ⟨?_, ?_, ?_⟩
  · intro ei hei
    unfold logObject buildLogObject
    rw [dlookup_applyStack_ne (by decide)]
    have hei1 : ({ r with message := some r.getMessage } : LogRecord).exc_info
        = some ei := hei
    exact dlookup_applyException_some hei1
  · intro hei het
    unfold logObject buildLogObject
    rw [dlookup_applyStack_ne (by decide)]
    have hei1 : ({ r with message := some r.getMessage } : LogRecord).exc_info
        = none := hei
    have het1 : ({ r with message := some r.getMessage } : LogRecord).exc_text
        ≠ "" := het
    exact dlookup_applyException_text hei1 het1
  · intro h1 h2 h3
    rw [mem_outputKeys_iff]
    rintro (⟨_, hd⟩ | ⟨v, hv, _, _⟩ | ⟨_, hp⟩ | ⟨hs, _⟩)
    · exact absurd hd (by decide)
    · exact h3 v hv
    · rcases hp with hp | hp
      · rw [h1] at hp
        exact Bool.noConfusion hp
      · exact hp h2
    · exact absurd hs (by decide)

/-- Witness for the amended C5 on a record with a captured triple. -/
theorem c5_witness :
    dlookup (logObject (JsonFormatter.init) excRecord) "exception" =
      some (Value.vstr (formatException
        ⟨["Traceback (most recent call last):\n",
          "ValueError: algo errado\n"]⟩)) :=
  (c5_exception_field (JsonFormatter.init) excRecord).1 _ rfl

/-- C6 as stated is false on the code: an extra named `exception` passes
the filter, but when a captured triple is also present the exception step
runs after the extras step and overwrites the extra's value. -/
theorem c6_counterexample :
    ("exception", Value.vstr "from-extra") ∈ overwriteExcRecord.extras ∧
    "exception" ∉ INTERNAL_ATTRS ∧
    startsWithUnderscore "exception" = false ∧
    dlookup (logObject (JsonFormatter.init) overwriteExcRecord) "exception" ≠
      some (Value.vstr "from-extra") := by
  refine ⟨List.mem_singleton.mpr rfl, by decide, by decide, ?_⟩
  have h : dlookup (logObject (JsonFormatter.init) overwriteExcRecord)
      "exception" = some (Value.vstr (formatException ⟨["TypeError: boom\n"]⟩)) := by
    unfold logObject buildLogObject
    rw [dlookup_applyStack_ne (by decide)]
    exact dlookup_applyException_some rfl
  rw [h, show formatException ⟨["TypeError: boom\n"]⟩ = "TypeError: boom" from rfl]
  intro hc
  exact absurd (Value.vstr.inj (Option.some.inj hc)) (by decide)

/-- C6 amended: an extra whose name is not internal and not
underscore-prefixed appears in the output under its own name with its
value unchanged — including when it collides with a selected standard
field, where the extra wins — except that the exception step overwrites
an extra named `exception` when the record carries exception data. -/
theorem c6_extras_passthrough (f : JsonFormatter) (r : LogRecord)
    (k : String) (v : Value)
    (hnd : (r.extras.map Prod.fst).Nodup) (hmem : (k, v) ∈ r.extras)
    (hint : k ∉ INTERNAL_ATTRS) (hsw : startsWithUnderscore k = false)
    (hexc : k = "exception" → r.exc_info = none ∧ r.exc_text = "") :
    dlookup (logObject f r) k = some v := by
  unfold logObject buildLogObject
  have hks : ¬ k = "stack_info" := by
    intro he
    rw [he] at hint
    exact hint (by decide)
  rw [dlookup_applyStack_ne hks]
  have hlk : dlookup ((recordDict { r with message := some r.getMessage }).foldl
      addExtra (f.fields.foldl
        (addStandard (fieldMap { r with message := some r.getMessage })) [])) k
      = some v := by
    apply dlookup_foldl_addExtra_of_uniq hint hsw
    · exact (mem_recordDict_of_not_internal hint).mpr hmem
    · intro v1 hv1
      exact nodup_keys_unique hnd hmem
        ((@mem_recordDict_of_not_internal
          { r with message := some r.getMessage } k v1 hint).mp hv1)
  by_cases hke : k = "exception"
  · obtain ⟨h1, h2⟩ := hexc hke
    have h11 : ({ r with message := some r.getMessage } : LogRecord).exc_info
        = none := h1
    have h21 : ({ r with message := some r.getMessage } : LogRecord).exc_text
        = "" := h2
    rw [applyException_of_absent h11 h21]
    exact hlk
  · rw [dlookup_applyException_ne hke]
    exact hlk

/-- Witness for the amended C6: an extra colliding with the selected
standard field `level` wins. -/
theorem c6_witness :
    dlookup (logObject (JsonFormatter.init) levelExtraRecord) "level" =
      some (Value.vstr "CUSTOM") :=
  c6_extras_passthrough (JsonFormatter.init) levelExtraRecord "level"
    (Value.vstr "CUSTOM") (by decide) (List.mem_singleton.mpr rfl) (by decide)
    (by decide) (fun h => absurd h (by decide))

/-- C7: an unrecognized name in the configured field list raises no
error and contributes nothing — the output is identical to the output
without it — while every recognized configured name is still emitted. -/
theorem c7_unrecognized_skipped (f : JsonFormatter) (r : LogRecord)
    (k : String) (l1 l2 : List String)
    (hns : k ∉ DEFAULT_FIELDS) (hf : f.fields = l1 ++ k :: l2) :
    logObject f r = logObject { f with fields := l1 ++ l2 } r ∧
    (JsonFormatter.format f r).1 =
      (JsonFormatter.format { f with fields := l1 ++ l2 } r).1 ∧
    ∀ k1, k1 ∈ f.fields → k1 ∈ DEFAULT_FIELDS → k1 ∈ outputKeys f r := by
  have hobj : logObject f r = logObject { f with fields := l1 ++ l2 } r := by
    unfold logObject buildLogObject
    refine congrArg _ (congrArg _ ?_)
    refine congrArg (fun x => List.foldl addExtra x
      (recordDict { r with message := some r.getMessage })) ?_
    calc List.foldl (addStandard (fieldMap
          { r with message := some r.getMessage })) [] f.fields
        = List.foldl (addStandard (fieldMap
            { r with message := some r.getMessage })) [] (l1 ++ k :: l2) := by
          rw [hf]
      _ = List.foldl (addStandard (fieldMap
            { r with message := some r.getMessage })) [] (l1 ++ l2) := by
          rw [List.foldl_append, List.foldl_append, List.foldl_cons,
            addStandard_of_none (dlookup_fieldMap_eq_none hns)]
  refine ⟨hobj, congrArg (fun m => dumpsVal true (Value.vobj m)) hobj, ?_⟩
  intro k1 hk1 hk2
  rw [mem_outputKeys_iff]
  exact Or.inl ⟨hk1, hk2⟩

/-- Witness for C7 at a concrete configuration containing the
unrecognized name `bogus`. -/
theorem c7_witness :
    logObject (JsonFormatter.init (some ["level", "bogus"])) baseRecord =
      logObject (JsonFormatter.init (some ["level"])) baseRecord ∧
    "level" ∈ outputKeys (JsonFormatter.init (some ["level", "bogus"])) baseRecord := by
  have h := c7_unrecognized_skipped (JsonFormatter.init (some ["level", "bogus"]))
    baseRecord "bogus" ["level"] [] (by decide) rfl
  exact ⟨h.1, h.2.2 "level" (by decide) (by decide)⟩

/-- C8: serialization with the stringify-anything fallback renders every
non-JSON-native value via its string representation and never fails, so
`format` returns a complete JSON string on every record. -/
theorem c8_serialization_fallback (f0 : JsonFormatter) (r0 : LogRecord) :
    (∀ s : String, dumpsVal true (Value.vother s) = dumpsVal true (Value.vstr s)) ∧
    (∀ v : Value, (dumpsVal true v).isSome = true) ∧
    ((JsonFormatter.format f0 r0).1).isSome = true :=
  ⟨fun _ => rfl, dumpsVal_total, dumpsVal_total _⟩

/-- C9: `format` mutates only the record's cached message field, setting
it to the rendered message text; the formatter's configuration and every
other record attribute are unchanged. -/
theorem c9_frame (f : JsonFormatter) (r : LogRecord) :
    (JsonFormatter.format f r).2.1 = f ∧
    (JsonFormatter.format f r).2.2 =
      { r with message := some r.getMessage } ∧
    (JsonFormatter.format f r).2.2.message = some r.getMessage ∧
    (JsonFormatter.format f r).2.2.name = r.name ∧
    (JsonFormatter.format f r).2.2.msg = r.msg ∧
    (JsonFormatter.format f r).2.2.args = r.args ∧
    (JsonFormatter.format f r).2.2.levelname = r.levelname ∧
    (JsonFormatter.format f r).2.2.created = r.created ∧
    (JsonFormatter.format f r).2.2.exc_info = r.exc_info ∧
    (JsonFormatter.format f r).2.2.exc_text = r.exc_text ∧
    (JsonFormatter.format f r).2.2.stack_info = r.stack_info ∧
    (JsonFormatter.format f r).2.2.extras = r.extras :=
  ⟨rfl, rfl, rfl, rfl, rfl, rfl, rfl, rfl, rfl, rfl, rfl, rfl⟩

/-- C10 as stated is false on the code: a record with no exception triple
and empty exception text still yields an `exception` key when an extra
attribute of that name survives the filter. -/
theorem c10_counterexample :
    phantomExcRecord.exc_info = none ∧ phantomExcRecord.exc_text = "" ∧
    "exception" ∈ outputKeys (JsonFormatter.init) phantomExcRecord := by
  refine ⟨rfl, rfl, ?_⟩
  rw [mem_outputKeys_iff]
  exact Or.inr (Or.inl ⟨Value.vint 5, List.mem_singleton.mpr rfl,
    by decide, by decide⟩)

/-- C10 amended: key presence is decided by truthiness — a record with no
triple, empty exception text, and no extra named `exception` gets no
`exception` key, and empty stack text yields no `stack_info` key. -/
theorem c10_truthiness (f : JsonFormatter) (r : LogRecord) :
    (r.exc_info = none → r.exc_text = "" →
      (∀ v, ("exception", v) ∉ r.extras) →
      "exception" ∉ outputKeys f r) ∧
    (r.stack_info = "" → "stack_info" ∉ outputKeys f r) := by
  constructor
  · intro h1 h2 h3
    rw [mem_outputKeys_iff]
    rintro (⟨_, hd⟩ | ⟨v, hv, _, _⟩ | ⟨_, hp⟩ | ⟨hs, _⟩)
    · exact absurd hd (by decide)
    · exact h3 v hv
    · rcases hp with hp | hp
      · rw [h1] at hp
        exact Bool.noConfusion hp
      · exact hp h2
    · exact absurd hs (by decide)
  · intro hs
    rw [mem_outputKeys_iff]
    rintro (⟨_, hd⟩ | ⟨_v, hv, hni, _⟩ | ⟨he, _⟩ | ⟨_, hne⟩)
    · exact absurd hd (by decide)
    · exact hni (by decide)
    · exact absurd he (by decide)
    · exact hne hs

/-- Witness for the amended C10 on a plain record. -/
theorem c10_witness :
    "exception" ∉ outputKeys (JsonFormatter.init) baseRecord ∧
    "stack_info" ∉ outputKeys (JsonFormatter.init) baseRecord :=
  ⟨(c10_truthiness (JsonFormatter.init) baseRecord).1 rfl rfl
    (fun _v h => absurd h (List.not_mem_nil _)),
   (c10_truthiness (JsonFormatter.init) baseRecord).2 rfl⟩

end JsonLogger
